import Mathlib

/-!
Verification of the RFCOMM TTY device bridge (net/bluetooth/rfcomm/tty.c)
against its natural-language specification.

Each C function relevant to the claims is shallowly embedded as an
executable Lean definition: pure computations become Lean functions,
registry and device mutations become explicit state passing, and the
reference-counting discipline becomes a step relation on an explicit
state record.  Theorems about these definitions settle the claims.
-/

namespace RfcommTty

/-! ### Error numbers (Linux errno values used by tty.c) -/

def ENODEV : Int := 19
def ENOMEM : Int := 12
def ENFILE : Int := 23
def EADDRINUSE : Int := 98
def EINTR : Int := 4

/-! ### Interface constants

The flag bit positions and the registry bound are taken from the rfcomm
interface header the source file includes; the header itself is not under
src/, so these definitions are modelled from the spec wording plus the
uses visible in tty.c (only their distinctness and the two policy bit
positions matter to the claims). -/

/-- Modelled from the spec: the registry bound MAX_DEVICES
(RFCOMM_MAX_DEV in the interface header, not under src/). -/
def RFCOMM_MAX_DEV : Int := 256

/-- Modelled from the spec: flag bit for the reuse-existing-channel
policy (interface header, not under src/). -/
def RFCOMM_REUSE_DLC : Nat := 0

/-- Modelled from the spec: flag bit for the release-on-hangup policy
(interface header, not under src/). -/
def RFCOMM_RELEASE_ONHUP : Nat := 1

/-- Modelled from the spec: flag bit set while a consumer has the device
open (interface header, not under src/). -/
def RFCOMM_TTY_ATTACHED : Nat := 3

/-- Modelled from the spec: flag bit marking a device released, i.e. no
longer discoverable by id (interface header, not under src/). -/
def RFCOMM_TTY_RELEASED : Nat := 4

/-! ### C10: flag masking at device creation

tty.c, rfcomm_dev_add:
  dev.flags = req.flags and ((1 shl RFCOMM_RELEASE_ONHUP) or (1 shl RFCOMM_REUSE_DLC))
-/

/-- The store of the immutable flag bitset at creation time
(rfcomm_dev_add, tty.c lines 234-235). -/
def rfcomm_dev_add_flags (reqFlags : Nat) : Nat :=
  reqFlags &&& ((1 <<< RFCOMM_RELEASE_ONHUP) ||| (1 <<< RFCOMM_REUSE_DLC))

/-! ### C2: outbound room (rfcomm_room, rfcomm_tty_write_room) -/

/-- The channel state the bridge reads: maximum transmission unit and
transmit credits (struct rfcomm_dlc fields used by tty.c). -/
structure RfcommDlc where
  mtu : Nat
  tx_credits : Nat
  deriving Repr, DecidableEq

/-- rfcomm_room (tty.c lines 326-331): mtu times tx_credits, where the
GNU conditional (tx_credits elvis 1) substitutes 1 for a zero credit
count so the reported room can never stay at zero forever. -/
def rfcomm_room (dlc : RfcommDlc) : Nat :=
  dlc.mtu * (if dlc.tx_credits = 0 then 1 else dlc.tx_credits)

/-- rfcomm_tty_write_room (tty.c lines 795-810), for a tty whose device
and dlc are present: room = rfcomm_room - wmem_alloc, clamped below at
zero.  wmem_alloc is the outstanding accounted byte counter. -/
def rfcomm_tty_write_room (dlc : RfcommDlc) (wmem_alloc : Nat) : Int :=
  let room : Int := (rfcomm_room dlc : Int) - (wmem_alloc : Int)
  if room < 0 then 0 else room

/-! ### C1: inbound delivery and pending-queue drain

Chunks are byte lists; the consumer read buffer (tty flip buffer) is a
byte list that tty_insert_flip_string appends to. -/

/-- The slice of device state the inbound data path touches: the pending
queue of undelivered chunks and the consumer read buffer. -/
structure DevData where
  pending : List (List Nat)
  readBuf : List Nat
  deriving Repr, DecidableEq

/-- rfcomm_dev_data_ready (tty.c lines 541-561), for a dlc whose owner
device is present: if the pending queue is non-empty the chunk is
appended to its tail, otherwise its bytes go straight to the consumer
read buffer. -/
def rfcomm_dev_data_ready (dev : DevData) (skb : List Nat) : DevData :=
  if dev.pending = [] then
    { dev with readBuf := dev.readBuf ++ skb }
  else
    { dev with pending := dev.pending ++ [skb] }

/-- The drain loop body of rfcomm_tty_copy_pending: dequeue chunks from
the head of the pending queue and append each to the read buffer. -/
def copy_pending_loop : List (List Nat) → List Nat → List Nat
  | [], buf => buf
  | skb :: rest, buf => copy_pending_loop rest (buf ++ skb)

/-- rfcomm_tty_copy_pending (tty.c lines 620-639): drain the pending
queue in FIFO order into the consumer read buffer. -/
def rfcomm_tty_copy_pending (dev : DevData) : DevData :=
  { pending := [], readBuf := copy_pending_loop dev.pending dev.readBuf }

/-! Helper lemmas for the data bridge. -/

theorem copy_pending_loop_eq (q : List (List Nat)) (buf : List Nat) :
    copy_pending_loop q buf = buf ++ q.flatten := by
  induction q generalizing buf with
  | nil => simp [copy_pending_loop]
  | cons skb rest ih => simp [copy_pending_loop, ih]

theorem data_ready_foldl_of_pending_ne
    (cs : List (List Nat)) (dev : DevData) (h : dev.pending ≠ []) :
    cs.foldl rfcomm_dev_data_ready dev =
      { dev with pending := dev.pending ++ cs } := by
  induction cs generalizing dev with
  | nil => simp
  | cons c rest ih =>
      have hne : dev.pending ++ [c] ≠ [] := by simp
      simp only [List.foldl_cons, rfcomm_dev_data_ready, if_neg h]
      rw [ih _ hne]
      simp

/-! ### C4 and C9: registry id allocation (rfcomm_dev_add)

The registry is modelled by its ordered list of device ids (the list is
kept sorted by id by the insertion code itself).  rfcomm_dev_add either
picks the id (dev_id negative means any) and the insertion position, or
fails leaving the registry untouched. -/

/-- The id-search loop of rfcomm_dev_add for a negative requested id
(tty.c lines 195-204): walk the list advancing a candidate id while each
entry matches it; returns the candidate and the number of entries walked
(the insertion position after the last matching entry). -/
def alloc_any_id : List Int → Int → Int × Nat
  | [], id => (id, 0)
  | e :: rest, id =>
      if e ≠ id then (id, 0)
      else
        let r := alloc_any_id rest (id + 1)
        (r.1, r.2 + 1)

/-- The id-search loop of rfcomm_dev_add for a requested specific id
(tty.c lines 205-219): scan for an entry with the same id (failure,
EADDRINUSE, modelled as none) or the first entry whose id exceeds
reqId - 1 (the insertion position, modelled as some position). -/
def specific_id_scan : List Int → Int → Option Nat
  | [], _ => some 0
  | e :: rest, id =>
      if e = id then none
      else if e > id - 1 then some 0
      else (specific_id_scan rest id).map (· + 1)

/-- rfcomm_dev_add (tty.c lines 181-302), restricted to the id choice and
list insertion: returns the outcome (allocated id or errno) together with
the resulting registry; on failure the registry is unchanged. -/
def rfcomm_dev_add (reqId : Int) (regs : List Int) :
    (Except Int Int) × List Int :=
  if reqId < 0 then
    let r := alloc_any_id regs 0
    if r.1 < 0 ∨ r.1 > RFCOMM_MAX_DEV - 1 then (Except.error (-ENFILE), regs)
    else (Except.ok r.1, regs.take r.2 ++ r.1 :: regs.drop r.2)
  else
    match specific_id_scan regs reqId with
    | none => (Except.error (-EADDRINUSE), regs)
    | some pos =>
        if reqId < 0 ∨ reqId > RFCOMM_MAX_DEV - 1 then
          (Except.error (-ENFILE), regs)
        else (Except.ok reqId, regs.take pos ++ reqId :: regs.drop pos)

/-! Characterisation of the any-id search on a sorted registry. -/

theorem alloc_any_id_spec (regs : List Int) (start : Int)
    (hs : regs.Pairwise (· < ·)) (hlb : ∀ x ∈ regs, start ≤ x) :
    start ≤ (alloc_any_id regs start).1 ∧
    (alloc_any_id regs start).1 ∉ regs ∧
    (∀ j : Int, start ≤ j → j < (alloc_any_id regs start).1 → j ∈ regs) ∧
    (∀ x ∈ regs.take (alloc_any_id regs start).2,
        x < (alloc_any_id regs start).1) ∧
    (∀ x ∈ regs.drop (alloc_any_id regs start).2,
        (alloc_any_id regs start).1 < x) := by
  induction regs generalizing start with
  | nil =>
      refine ⟨le_refl _, by simp [alloc_any_id], ?_, by simp, by simp⟩
      intro j hj hj2
      simp [alloc_any_id] at hj2
      omega
  | cons e rest ih =>
      have he : start ≤ e := hlb e (by simp)
      have hrest : ∀ x ∈ rest, e < x := by
        intro x hx
        exact (List.pairwise_cons.mp hs).1 x hx
      by_cases heq : e = start
      · subst heq
        have hs' : rest.Pairwise (· < ·) := (List.pairwise_cons.mp hs).2
        have hlb' : ∀ x ∈ rest, e + 1 ≤ x := by
          intro x hx; exact hrest x hx
        obtain ⟨ih1, ih2, ih3, ih4, ih5⟩ := ih (e + 1) hs' hlb'
        have hrec : alloc_any_id (e :: rest) e =
            ((alloc_any_id rest (e + 1)).1, (alloc_any_id rest (e + 1)).2 + 1) := by
          simp [alloc_any_id]
        rw [hrec]
        refine ⟨by omega, ?_, ?_, ?_, ?_⟩
        · intro hmem
          rcases List.mem_cons.mp hmem with h | h
          · omega
          · exact ih2 h
        · intro j hj1 hj2
          rcases eq_or_lt_of_le hj1 with h | h
          · exact List.mem_cons.mpr (Or.inl h.symm)
          · exact List.mem_cons.mpr (Or.inr (ih3 j (by omega) hj2))
        · intro x hx
          simp only [List.take_succ_cons] at hx
          rcases List.mem_cons.mp hx with h | h
          · omega
          · exact ih4 x h
        · intro x hx
          simp only [List.drop_succ_cons] at hx
          exact ih5 x hx
      · have hrec : alloc_any_id (e :: rest) start = (start, 0) := by
          simp [alloc_any_id, heq]
        rw [hrec]
        refine ⟨le_refl _, ?_, ?_, by simp, ?_⟩
        · intro hmem
          rcases List.mem_cons.mp hmem with h | h
          · exact heq h.symm
          · have := hrest _ h; omega
        · intro j hj1 hj2; omega
        · intro x hx
          simp only [List.drop_zero] at hx
          rcases List.mem_cons.mp hx with h | h
          · omega
          · have := hrest _ h; omega

/-- C4: a create request with dev_id < 0 allocates the smallest
non-negative id not already present, and inserts it keeping the registry
sorted (rfcomm_dev_add, tty.c lines 193-228). -/
theorem claim_C4_smallest_free_id (regs : List Int)
    (hs : regs.Pairwise (· < ·)) (h0 : ∀ x ∈ regs, 0 ≤ x)
    (hroom : ∃ j : Int, 0 ≤ j ∧ j < RFCOMM_MAX_DEV ∧ j ∉ regs) :
    (rfcomm_dev_add (-1) regs).1 = Except.ok (alloc_any_id regs 0).1 ∧
    0 ≤ (alloc_any_id regs 0).1 ∧
    (alloc_any_id regs 0).1 ∉ regs ∧
    (∀ j : Int, 0 ≤ j → j < (alloc_any_id regs 0).1 → j ∈ regs) ∧
    (rfcomm_dev_add (-1) regs).2.Pairwise (· < ·) ∧
    (∀ x : Int, x ∈ (rfcomm_dev_add (-1) regs).2 ↔
        x ∈ regs ∨ x = (alloc_any_id regs 0).1) := by
  obtain ⟨h1, h2, h3, h4, h5⟩ := alloc_any_id_spec regs 0 hs h0
  obtain ⟨j, hj0, hjmax, hjfree⟩ := hroom
  have hid_le : (alloc_any_id regs 0).1 ≤ j := by
    by_contra hlt
    exact hjfree (h3 j hj0 (by omega))
  have hbound : ¬((alloc_any_id regs 0).1 < 0 ∨
      (alloc_any_id regs 0).1 > RFCOMM_MAX_DEV - 1) := by omega
  have hadd : rfcomm_dev_add (-1) regs =
      (Except.ok (alloc_any_id regs 0).1,
       regs.take (alloc_any_id regs 0).2 ++
         (alloc_any_id regs 0).1 :: regs.drop (alloc_any_id regs 0).2) := by
    simp only [rfcomm_dev_add, if_pos (by norm_num : (-1 : Int) < 0), if_neg hbound]
  refine ⟨by rw [hadd], h1, h2, h3, ?_, ?_⟩
  · rw [hadd]
    simp only []
    rw [List.pairwise_append]
    refine ⟨hs.sublist (List.take_sublist _ _), ?_, ?_⟩
    · rw [List.pairwise_cons]
      exact ⟨h5, hs.sublist (List.drop_sublist _ _)⟩
    · intro a ha b hb
      rcases List.mem_cons.mp hb with h | h
      · subst h; exact h4 a ha
      · calc a < (alloc_any_id regs 0).1 := h4 a ha
          _ < b := h5 b h
  · intro x
    rw [hadd]
    simp only [List.mem_append, List.mem_cons]
    constructor
    · rintro (h | h | h)
      · exact Or.inl (List.mem_of_mem_take h)
      · exact Or.inr h
      · exact Or.inl (List.mem_of_mem_drop h)
    · rintro (h | h)
      · have := (List.take_append_drop (alloc_any_id regs 0).2 regs) ▸ h
        rcases List.mem_append.mp this with h | h
        · exact Or.inl h
        · exact Or.inr (Or.inr h)
      · exact Or.inr (Or.inl h)

/-- Witness for claim C4 at the concrete registries of the spec test:
ids 0,1,2 present gives id 3; ids 0,2 present gives id 1. -/
theorem claim_C4_witness :
    (rfcomm_dev_add (-1) [0, 1, 2]).1 = Except.ok 3 ∧
    (rfcomm_dev_add (-1) [0, 2]).1 = Except.ok 1 := by
  have ha := (claim_C4_smallest_free_id [0, 1, 2] (by decide) (by decide)
    ⟨3, by decide⟩).1
  have hb := (claim_C4_smallest_free_id [0, 2] (by decide) (by decide)
    ⟨1, by decide⟩).1
  refine ⟨?_, ?_⟩
  · rw [ha]
    norm_num [alloc_any_id]
  · rw [hb]
    norm_num [alloc_any_id]

/-! Lemmas for the specific-id scan. -/

theorem specific_id_scan_none_of_mem (regs : List Int) (id : Int)
    (hs : regs.Pairwise (· < ·)) (hmem : id ∈ regs) :
    specific_id_scan regs id = none := by
  induction regs with
  | nil => cases hmem
  | cons e rest ih =>
      have hrest : ∀ x ∈ rest, e < x := fun x hx =>
        (List.pairwise_cons.mp hs).1 x hx
      by_cases heq : e = id
      · simp [specific_id_scan, heq]
      · have hmem' : id ∈ rest := by
          rcases List.mem_cons.mp hmem with h | h
          · exact absurd h.symm heq
          · exact h
        have hlt : e < id := hrest id hmem'
        have : ¬(e > id - 1) := by omega
        simp only [specific_id_scan, if_neg heq, if_neg this]
        rw [ih (List.pairwise_cons.mp hs).2 hmem']
        rfl

theorem specific_id_scan_isSome_of_not_mem (regs : List Int) (id : Int)
    (hmem : id ∉ regs) : (specific_id_scan regs id).isSome = true := by
  induction regs with
  | nil => simp [specific_id_scan]
  | cons e rest ih =>
      have hne : e ≠ id := fun h => hmem (h ▸ List.mem_cons_self e rest)
      by_cases hgt : e > id - 1
      · simp [specific_id_scan, hne, hgt]
      · have hmem' : id ∉ rest := fun h => hmem (List.mem_cons.mpr (Or.inr h))
        simp only [specific_id_scan, if_neg hne, if_neg hgt]
        rcases Option.isSome_iff_exists.mp (ih hmem') with ⟨pos, hp⟩
        rw [hp]; rfl

/-- C9: a create request for an already-present id fails with
address-in-use leaving the registry unchanged; a requested id outside
[0, RFCOMM_MAX_DEV), or an any-id request against a full registry, fails
with too-many-devices, also leaving the registry unchanged. -/
theorem claim_C9_create_errors (regs : List Int) (reqId : Int)
    (hs : regs.Pairwise (· < ·))
    (hrange : ∀ x ∈ regs, 0 ≤ x ∧ x < RFCOMM_MAX_DEV) :
    (reqId ∈ regs →
      rfcomm_dev_add reqId regs = (Except.error (-EADDRINUSE), regs)) ∧
    (RFCOMM_MAX_DEV ≤ reqId →
      rfcomm_dev_add reqId regs = (Except.error (-ENFILE), regs)) ∧
    ((∀ j : Int, 0 ≤ j → j < RFCOMM_MAX_DEV → j ∈ regs) →
      rfcomm_dev_add (-1) regs = (Except.error (-ENFILE), regs)) := by
  refine ⟨?_, ?_, ?_⟩
  · intro hmem
    have h0 : ¬(reqId < 0) := by
      have := (hrange reqId hmem).1; omega
    simp only [rfcomm_dev_add, if_neg h0,
      specific_id_scan_none_of_mem regs reqId hs hmem]
  · intro hge
    have h0 : ¬(reqId < 0) := by
      have : (0 : Int) ≤ RFCOMM_MAX_DEV := by decide
      omega
    have hmem : reqId ∉ regs := fun h => by
      have := (hrange reqId h).2; omega
    rcases Option.isSome_iff_exists.mp
      (specific_id_scan_isSome_of_not_mem regs reqId hmem) with ⟨pos, hp⟩
    have hbound : reqId < 0 ∨ reqId > RFCOMM_MAX_DEV - 1 := by omega
    simp only [rfcomm_dev_add, if_neg h0, hp, if_pos hbound]
  · intro hfull
    obtain ⟨h1, h2, _, _, _⟩ := alloc_any_id_spec regs 0 hs
      (fun x hx => (hrange x hx).1)
    have hge : RFCOMM_MAX_DEV ≤ (alloc_any_id regs 0).1 := by
      by_contra hlt
      exact h2 (hfull _ h1 (by omega))
    have hbound : (alloc_any_id regs 0).1 < 0 ∨
        (alloc_any_id regs 0).1 > RFCOMM_MAX_DEV - 1 := by omega
    simp only [rfcomm_dev_add, if_pos (by norm_num : (-1 : Int) < 0),
      if_pos hbound]

/-- Witness for claim C9: requesting id 1 with registry holding id 1
fails address-in-use and leaves the registry unchanged. -/
theorem claim_C9_witness :
    rfcomm_dev_add 1 [1] = (Except.error (-EADDRINUSE), [1]) :=
  (claim_C9_create_errors [1] 1 (by decide) (by decide)).1 (by decide)

/-! ### C3: outbound send (rfcomm_tty_write, rfcomm_wmalloc)

Externals the loop interacts with are modelled by an oracle: whether the
allocator can satisfy each request, the accounted truesize of each
allocated chunk, and the result of each channel send. -/

/-- Oracle for the external effects inside the write loop, indexed by
iteration number. -/
structure WriteOracle where
  allocOk : Nat → Bool
  truesize : Nat → Nat
  sendRes : Nat → Int

/-- rfcomm_wmalloc (tty.c lines 351-361): the accounted allocation
succeeds only while outstanding accounted bytes are below rfcomm_room
and the allocator has memory; on success the accounting counter grows by
the truesize of the new chunk (rfcomm_set_owner_w). -/
def rfcomm_wmalloc (dlc : RfcommDlc) (wmem : Nat) (allocOk : Bool)
    (ts : Nat) : Option Nat :=
  if wmem < rfcomm_room dlc ∧ allocOk = true then some (wmem + ts) else none

/-- The loop of rfcomm_tty_write (tty.c lines 770-790).  Arguments after
the oracle: fuel, remaining count, iteration index, bytes sent so far,
accounted bytes, sizes of chunks queued so far.  Returns (sent, err,
accounted bytes, queued chunk sizes).  A failed send frees the chunk,
which runs the accounting destructor (rfcomm_wfree). -/
def rfcomm_tty_write_loop (dlc : RfcommDlc) (o : WriteOracle) :
    Nat → Nat → Nat → Nat → Nat → List Nat → Nat × Int × Nat × List Nat
  | 0, _, _, sent, wmem, chunks => (sent, 0, wmem, chunks)
  | fuel + 1, count, i, sent, wmem, chunks =>
      if count = 0 then (sent, 0, wmem, chunks)
      else
        let size := min count dlc.mtu
        match rfcomm_wmalloc dlc wmem (o.allocOk i) (o.truesize i) with
        | none => (sent, 0, wmem, chunks)
        | some wmem1 =>
            if o.sendRes i < 0 then
              (sent, o.sendRes i, wmem1 - o.truesize i, chunks)
            else
              rfcomm_tty_write_loop dlc o fuel (count - size) (i + 1)
                (sent + size) wmem1 (chunks ++ [size])

/-- rfcomm_tty_write (tty.c lines 761-793): run the loop over the whole
buffer and report sent if nonzero, otherwise the captured error.
Returns (result, final accounted bytes, queued chunk sizes). -/
def rfcomm_tty_write (dlc : RfcommDlc) (o : WriteOracle)
    (count wmem : Nat) : Int × Nat × List Nat :=
  let r := rfcomm_tty_write_loop dlc o count count 0 0 wmem []
  (if r.1 ≠ 0 then (r.1 : Int) else r.2.1, r.2.2.1, r.2.2.2)

theorem rfcomm_tty_write_loop_spec (dlc : RfcommDlc) (o : WriteOracle)
    (hmtu : 0 < dlc.mtu) :
    ∀ fuel count i sent wmem chunks, count ≤ fuel →
      ∃ new : List Nat,
        (rfcomm_tty_write_loop dlc o fuel count i sent wmem chunks).2.2.2 =
          chunks ++ new ∧
        (rfcomm_tty_write_loop dlc o fuel count i sent wmem chunks).1 =
          sent + new.sum ∧
        (∀ c ∈ new, 0 < c ∧ c ≤ dlc.mtu) ∧
        new.sum ≤ count ∧
        (rfcomm_tty_write_loop dlc o fuel count i sent wmem chunks).2.1 ≤ 0 ∧
        (new = [] →
          (rfcomm_tty_write_loop dlc o fuel count i sent wmem chunks).2.1 = 0 ∨
          (rfcomm_tty_write_loop dlc o fuel count i sent wmem chunks).2.1 =
            o.sendRes i) := by
  intro fuel
  induction fuel with
  | zero =>
      intro count i sent wmem chunks hc
      refine ⟨[], by simp [rfcomm_tty_write_loop], by simp [rfcomm_tty_write_loop],
        by simp, by simp, by simp [rfcomm_tty_write_loop], ?_⟩
      intro _
      simp [rfcomm_tty_write_loop]
  | succ fuel ih =>
      intro count i sent wmem chunks hc
      by_cases hc0 : count = 0
      · subst hc0
        refine ⟨[], by simp [rfcomm_tty_write_loop],
          by simp [rfcomm_tty_write_loop], by simp, by simp,
          by simp [rfcomm_tty_write_loop], ?_⟩
        intro _
        simp [rfcomm_tty_write_loop]
      · have hsize1 : 0 < min count dlc.mtu := by
          have : 0 < count := Nat.pos_of_ne_zero hc0
          omega
        have hsizele : min count dlc.mtu ≤ dlc.mtu := Nat.min_le_right _ _
        have hsizelec : min count dlc.mtu ≤ count := Nat.min_le_left _ _
        rcases hw : rfcomm_wmalloc dlc wmem (o.allocOk i) (o.truesize i) with
          _ | wmem1
        · refine ⟨[], ?_, ?_, by simp, by simp, ?_, ?_⟩ <;>
            simp [rfcomm_tty_write_loop, hc0, hw]
        · by_cases hsend : o.sendRes i < 0
          · refine ⟨[], ?_, ?_, by simp, by simp, ?_, ?_⟩ <;>
              simp [rfcomm_tty_write_loop, hc0, hw, hsend]
            omega
          · have hrec : rfcomm_tty_write_loop dlc o (fuel + 1) count i sent
                wmem chunks =
                rfcomm_tty_write_loop dlc o fuel (count - min count dlc.mtu)
                  (i + 1) (sent + min count dlc.mtu) wmem1
                  (chunks ++ [min count dlc.mtu]) := by
              simp [rfcomm_tty_write_loop, hc0, hw, hsend]
            obtain ⟨new, h1, h2, h3, h4, h5, h6⟩ := ih (count - min count dlc.mtu)
              (i + 1) (sent + min count dlc.mtu) wmem1
              (chunks ++ [min count dlc.mtu]) (by omega)
            refine ⟨min count dlc.mtu :: new, ?_, ?_, ?_, ?_, ?_, ?_⟩
            · rw [hrec, h1]; simp
            · rw [hrec, h2]; simp; omega
            · intro c hcmem
              rcases List.mem_cons.mp hcmem with h | h
              · subst h; exact ⟨hsize1, hsizele⟩
              · exact h3 c h
            · simp only [List.sum_cons]; omega
            · rw [hrec]; exact h5
            · intro habs; cases habs

/-- C3: outbound send splits the buffer into chunks each no larger than
the channel MTU and totalling at most the requested count; whenever at
least one chunk was queued the call returns the byte count queued so
far, and when nothing was queued it returns a non-positive value that is
either the first underlying send error or zero (rfcomm_tty_write,
tty.c lines 761-793; rfcomm_wmalloc, lines 351-361). -/
theorem claim_C3_write_split_chunks (dlc : RfcommDlc) (o : WriteOracle)
    (count wmem : Nat) (hmtu : 0 < dlc.mtu) :
    (∀ c ∈ (rfcomm_tty_write dlc o count wmem).2.2, 0 < c ∧ c ≤ dlc.mtu) ∧
    (rfcomm_tty_write dlc o count wmem).2.2.sum ≤ count ∧
    ((rfcomm_tty_write dlc o count wmem).2.2 ≠ [] →
      (rfcomm_tty_write dlc o count wmem).1 =
        ((rfcomm_tty_write dlc o count wmem).2.2.sum : Int)) ∧
    ((rfcomm_tty_write dlc o count wmem).2.2 = [] →
      (rfcomm_tty_write dlc o count wmem).1 ≤ 0 ∧
      ((rfcomm_tty_write dlc o count wmem).1 = 0 ∨
       (rfcomm_tty_write dlc o count wmem).1 = o.sendRes 0)) := by
  obtain ⟨new, h1, h2, h3, h4, h5, h6⟩ :=
    rfcomm_tty_write_loop_spec dlc o hmtu count count 0 0 wmem [] (le_refl _)
  have hchunks : (rfcomm_tty_write dlc o count wmem).2.2 = new := by
    simp only [rfcomm_tty_write]
    rw [h1]; simp
  have hnil : (rfcomm_tty_write_loop dlc o count count 0 0 wmem []).2.2.2 =
      new := by rw [h1]; simp
  refine ⟨?_, ?_, ?_, ?_⟩
  · rw [hchunks]; exact h3
  · rw [hchunks]; exact h4
  · intro hne
    rw [hchunks] at hne ⊢
    have hsum : 0 < new.sum := by
      rcases new with _ | ⟨c, rest⟩
      · exact absurd rfl hne
      · have := (h3 c (by simp)).1
        simp only [List.sum_cons]
        omega
    have hsent : (rfcomm_tty_write_loop dlc o count count 0 0 wmem []).1 =
        new.sum := by rw [h2]; omega
    simp only [rfcomm_tty_write, hsent]
    rw [if_pos (by omega)]
  · intro hnil2
    rw [hchunks] at hnil2
    subst hnil2
    have hsent : (rfcomm_tty_write_loop dlc o count count 0 0 wmem []).1 = 0 := by
      rw [h2]; simp
    simp only [rfcomm_tty_write, hsent]
    rw [if_neg (by simp)]
    exact ⟨h5, h6 rfl⟩

/-- Witness for claim C3 at a concrete channel and oracle: mtu 2,
credits 1, a 5-byte buffer with plenty of room queues chunks summing to
at most 5. -/
theorem claim_C3_witness :
    (rfcomm_tty_write ⟨2, 1⟩ ⟨fun _ => true, fun _ => 1, fun _ => 0⟩
      5 0).2.2.sum ≤ 5 :=
  (claim_C3_write_split_chunks ⟨2, 1⟩ ⟨fun _ => true, fun _ => 1, fun _ => 0⟩
    5 0 (by decide)).2.1

/-! ### Claim theorems for C1, C2 and C10 -/

/-- C1: when the pending queue is non-empty every inbound chunk is
appended to its tail instead of being delivered directly, and the drain
performed after attachment delivers the whole queue to the consumer read
buffer in FIFO order, exactly once each and with no loss
(rfcomm_dev_data_ready, tty.c lines 541-561; rfcomm_tty_copy_pending,
lines 620-639). -/
theorem claim_C1_pending_queue_fifo (dev : DevData) (h : dev.pending ≠ [])
    (cs : List (List Nat)) :
    (∀ skb, rfcomm_dev_data_ready dev skb =
      { dev with pending := dev.pending ++ [skb] }) ∧
    rfcomm_tty_copy_pending (cs.foldl rfcomm_dev_data_ready dev) =
      { pending := [], readBuf := dev.readBuf ++ (dev.pending ++ cs).flatten } := by
  constructor
  · intro skb
    simp [rfcomm_dev_data_ready, h]
  · rw [data_ready_foldl_of_pending_ne cs dev h]
    simp [rfcomm_tty_copy_pending, copy_pending_loop_eq]

/-- Witness for claim C1: chunks 2, 3, 4 arriving while chunk 1 is
pending are all delivered after the chunk already queued, in order. -/
theorem claim_C1_witness :
    rfcomm_tty_copy_pending
      (([[2], [3], [4]] : List (List Nat)).foldl rfcomm_dev_data_ready
        ⟨[[1]], []⟩) =
      ⟨[], [1, 2, 3, 4]⟩ := by
  have h := (claim_C1_pending_queue_fifo ⟨[[1]], []⟩ (by decide)
    [[2], [3], [4]]).2
  simpa using h

/-- C2: the room reported to the consumer equals
mtu * max(tx_credits, 1) minus outstanding accounted bytes clamped below
at 0; with nothing outstanding the report is at least mtu even at zero
credits (rfcomm_room, tty.c lines 326-331; rfcomm_tty_write_room, lines
795-810). -/
theorem claim_C2_write_room (dlc : RfcommDlc) (wmem : Nat) :
    rfcomm_tty_write_room dlc wmem =
      max 0 ((dlc.mtu : Int) * max (dlc.tx_credits : Int) 1 - (wmem : Int)) ∧
    (wmem = 0 → (dlc.mtu : Int) ≤ rfcomm_tty_write_room dlc wmem) := by
  have hcred : ((if dlc.tx_credits = 0 then 1 else dlc.tx_credits : Nat) : Int)
      = max (dlc.tx_credits : Int) 1 := by
    by_cases h : dlc.tx_credits = 0
    · simp [h]
    · have h1 : 1 ≤ (dlc.tx_credits : Int) := by
        exact_mod_cast Nat.one_le_iff_ne_zero.mpr h
      simp [h, max_eq_left h1]
  constructor
  · simp only [rfcomm_tty_write_room, rfcomm_room]
    rw [Nat.cast_mul, hcred]
    split_ifs with hx
    · symm; apply max_eq_left; omega
    · symm; apply max_eq_right; omega
  · intro h0
    subst h0
    simp only [rfcomm_tty_write_room, rfcomm_room]
    rw [Nat.cast_mul, hcred]
    have h2 : (dlc.mtu : Int) ≤ (dlc.mtu : Int) * max (dlc.tx_credits : Int) 1 := by
      calc (dlc.mtu : Int) = (dlc.mtu : Int) * 1 := (mul_one _).symm
        _ ≤ (dlc.mtu : Int) * max (dlc.tx_credits : Int) 1 :=
          mul_le_mul_of_nonneg_left (le_max_right _ _) (by positivity)
    split_ifs with hx <;> omega

/-- Witness for claim C2: mtu 7, zero credits, nothing outstanding still
reports at least 7 bytes of room. -/
theorem claim_C2_witness :
    ((7 : Nat) : Int) ≤ rfcomm_tty_write_room ⟨7, 0⟩ 0 :=
  (claim_C2_write_room ⟨7, 0⟩ 0).2 rfl

/-- C10: the stored flag bitset at creation keeps only the
release-on-hangup and reuse-channel bits of the caller-supplied flags;
every other bit is masked off (rfcomm_dev_add, tty.c lines 234-235). -/
theorem claim_C10_flag_mask (f : Nat) :
    (rfcomm_dev_add_flags f).testBit RFCOMM_RELEASE_ONHUP =
      f.testBit RFCOMM_RELEASE_ONHUP ∧
    (rfcomm_dev_add_flags f).testBit RFCOMM_REUSE_DLC =
      f.testBit RFCOMM_REUSE_DLC ∧
    (∀ b, b ≠ RFCOMM_RELEASE_ONHUP → b ≠ RFCOMM_REUSE_DLC →
      (rfcomm_dev_add_flags f).testBit b = false) := by
  have hmask : rfcomm_dev_add_flags f = f &&& 3 := rfl
  refine ⟨?_, ?_, ?_⟩
  · rw [hmask, Nat.testBit_land]
    have h1 : Nat.testBit 3 RFCOMM_RELEASE_ONHUP = true := by decide
    rw [h1, Bool.and_true]
  · rw [hmask, Nat.testBit_land]
    have h0 : Nat.testBit 3 RFCOMM_REUSE_DLC = true := by decide
    rw [h0, Bool.and_true]
  · intro b hb1 hb0
    rw [hmask, Nat.testBit_land]
    have hb : 2 ≤ b := by
      simp only [RFCOMM_RELEASE_ONHUP, RFCOMM_REUSE_DLC] at hb1 hb0
      omega
    have h3 : (3 : Nat).testBit b = false := by
      apply Nat.testBit_lt_two_pow
      calc (3 : Nat) < 2 ^ 2 := by norm_num
        _ ≤ 2 ^ b := Nat.pow_le_pow_right (by norm_num) hb
    rw [h3, Bool.and_false]

/-- Witness for claim C10: a request with every low bit set stores
exactly the two policy bits. -/
theorem claim_C10_witness :
    (rfcomm_dev_add_flags 255).testBit 2 = false :=
  (claim_C10_flag_mask 255).2.2 2 (by decide) (by decide)

/-! ### C5: line-settings translator (rfcomm_tty_set_termios)

Termios flag bit values are the asm-generic Linux ones the source is
compiled against; the remote-port-negotiation codes come from the rfcomm
interface header (not under src/, modelled from the spec: only their
distinctness matters to the claims). -/

def PARENB : Nat := 256
def PARODD : Nat := 512
def CSTOPB : Nat := 64
def CSIZE : Nat := 48
def CS5 : Nat := 0
def CS6 : Nat := 16
def CS7 : Nat := 32
def CS8 : Nat := 48

def RFCOMM_RPN_BR_2400 : Nat := 0
def RFCOMM_RPN_BR_4800 : Nat := 1
def RFCOMM_RPN_BR_7200 : Nat := 2
def RFCOMM_RPN_BR_9600 : Nat := 3
def RFCOMM_RPN_BR_19200 : Nat := 4
def RFCOMM_RPN_BR_38400 : Nat := 5
def RFCOMM_RPN_BR_57600 : Nat := 6
def RFCOMM_RPN_BR_115200 : Nat := 7
def RFCOMM_RPN_BR_230400 : Nat := 8

def RFCOMM_RPN_DATA_5 : Nat := 0
def RFCOMM_RPN_DATA_6 : Nat := 1
def RFCOMM_RPN_DATA_7 : Nat := 2
def RFCOMM_RPN_DATA_8 : Nat := 3

def RFCOMM_RPN_STOP_1 : Nat := 0
def RFCOMM_RPN_STOP_15 : Nat := 1

def RFCOMM_RPN_PARITY_NONE : Nat := 0
def RFCOMM_RPN_PARITY_ODD : Nat := 1
def RFCOMM_RPN_PARITY_EVEN : Nat := 3

def RFCOMM_RPN_FLOW_NONE : Nat := 0
def RFCOMM_RPN_XON_CHAR : Nat := 17
def RFCOMM_RPN_XOFF_CHAR : Nat := 19

def RFCOMM_RPN_PM_BITRATE : Nat := 1
def RFCOMM_RPN_PM_DATA : Nat := 2
def RFCOMM_RPN_PM_STOP : Nat := 4
def RFCOMM_RPN_PM_PARITY : Nat := 8
def RFCOMM_RPN_PM_XON : Nat := 32
def RFCOMM_RPN_PM_XOFF : Nat := 64

/-- The slice of struct ktermios the translator reads: the control flag
word, the two flow-control characters, and the baud rate (the value
tty_termios_baud_rate extracts). -/
structure Ktermios where
  c_cflag : Nat
  vstop : Nat
  vstart : Nat
  baud : Nat
  deriving Repr, DecidableEq

/-- The negotiation message rfcomm_send_rpn carries (session, dlci and
the constant 1 for cr omitted). -/
structure RpnParams where
  baud : Nat
  data_bits : Nat
  stop_bits : Nat
  parity : Nat
  flow : Nat
  x_on : Nat
  x_off : Nat
  changes : Nat
  deriving Repr, DecidableEq

/-- Parity code from the new settings (tty.c lines 885-896). -/
def rpn_parity (new : Ktermios) : Nat :=
  if new.c_cflag &&& PARENB ≠ 0 then
    if new.c_cflag &&& PARODD ≠ 0 then RFCOMM_RPN_PARITY_ODD
    else RFCOMM_RPN_PARITY_EVEN
  else RFCOMM_RPN_PARITY_NONE

/-- Stop-bit code from the new settings (tty.c lines 921-927): a request
for 2 stop bits (CSTOPB) is coded as 1.5 stop bits. -/
def rpn_stop_bits (new : Ktermios) : Nat :=
  if new.c_cflag &&& CSTOPB ≠ 0 then RFCOMM_RPN_STOP_15 else RFCOMM_RPN_STOP_1

/-- Data-bit code from the new settings (tty.c lines 933-949). -/
def rpn_data_bits (new : Ktermios) : Nat :=
  if new.c_cflag &&& CSIZE = CS5 then RFCOMM_RPN_DATA_5
  else if new.c_cflag &&& CSIZE = CS6 then RFCOMM_RPN_DATA_6
  else if new.c_cflag &&& CSIZE = CS7 then RFCOMM_RPN_DATA_7
  else if new.c_cflag &&& CSIZE = CS8 then RFCOMM_RPN_DATA_8
  else RFCOMM_RPN_DATA_8

/-- Baud code from the new rate (tty.c lines 955-988), 9600 being the
fallback for any non-listed rate. -/
def rpn_baud (rate : Nat) : Nat :=
  if rate = 2400 then RFCOMM_RPN_BR_2400
  else if rate = 4800 then RFCOMM_RPN_BR_4800
  else if rate = 7200 then RFCOMM_RPN_BR_7200
  else if rate = 9600 then RFCOMM_RPN_BR_9600
  else if rate = 19200 then RFCOMM_RPN_BR_19200
  else if rate = 38400 then RFCOMM_RPN_BR_38400
  else if rate = 57600 then RFCOMM_RPN_BR_57600
  else if rate = 115200 then RFCOMM_RPN_BR_115200
  else if rate = 230400 then RFCOMM_RPN_BR_230400
  else RFCOMM_RPN_BR_9600

/-- The x_on character sent (tty.c lines 899-906): the new VSTOP
character when it changed, otherwise the default XON character. -/
def rpn_x_on (old new : Ktermios) : Nat :=
  if old.vstop ≠ new.vstop then new.vstop else RFCOMM_RPN_XON_CHAR

/-- The x_off character sent (tty.c lines 908-915): the new VSTART
character when it changed, otherwise the default XOFF character. -/
def rpn_x_off (old new : Ktermios) : Nat :=
  if old.vstart ≠ new.vstart then new.vstart else RFCOMM_RPN_XOFF_CHAR

/-- The change bitmask accumulated across rfcomm_tty_set_termios
(tty.c lines 878-953). -/
def rpn_changes (old new : Ktermios) : Nat :=
  (if old.c_cflag &&& PARENB ≠ new.c_cflag &&& PARENB ∨
      old.c_cflag &&& PARODD ≠ new.c_cflag &&& PARODD
   then RFCOMM_RPN_PM_PARITY else 0) |||
  (if old.vstop ≠ new.vstop then RFCOMM_RPN_PM_XON else 0) |||
  (if old.vstart ≠ new.vstart then RFCOMM_RPN_PM_XOFF else 0) |||
  (if old.c_cflag &&& CSTOPB ≠ new.c_cflag &&& CSTOPB
   then RFCOMM_RPN_PM_STOP else 0) |||
  (if old.c_cflag &&& CSIZE ≠ new.c_cflag &&& CSIZE
   then RFCOMM_RPN_PM_DATA else 0) |||
  (if old.baud ≠ new.baud then RFCOMM_RPN_PM_BITRATE else 0)

/-- rfcomm_tty_set_termios (tty.c lines 857-994) as the pure settings
translator: one negotiation message when the change bitmask is
non-empty, nothing otherwise. -/
def rfcomm_tty_set_termios (old new : Ktermios) : Option RpnParams :=
  if rpn_changes old new ≠ 0 then
    some ⟨rpn_baud new.baud, rpn_data_bits new, rpn_stop_bits new,
      rpn_parity new, RFCOMM_RPN_FLOW_NONE, rpn_x_on old new,
      rpn_x_off old new, rpn_changes old new⟩
  else none

/-- C5: the translator emits exactly one message carrying all current
parameter values plus the change bitmask when the bitmask is non-empty
and nothing when it is empty; changing only the stop-bit flag produces a
changemask of exactly the stop-bit change bit, and a 2-stop-bit request
is coded as 1.5 stop bits (rfcomm_tty_set_termios, tty.c lines
857-994). -/
theorem claim_C5_termios_rpn (old new : Ktermios) :
    (rpn_changes old new = 0 → rfcomm_tty_set_termios old new = none) ∧
    (rpn_changes old new ≠ 0 → rfcomm_tty_set_termios old new =
      some ⟨rpn_baud new.baud, rpn_data_bits new, rpn_stop_bits new,
        rpn_parity new, RFCOMM_RPN_FLOW_NONE, rpn_x_on old new,
        rpn_x_off old new, rpn_changes old new⟩) ∧
    (old.c_cflag &&& PARENB = new.c_cflag &&& PARENB →
      old.c_cflag &&& PARODD = new.c_cflag &&& PARODD →
      old.vstop = new.vstop → old.vstart = new.vstart →
      old.c_cflag &&& CSIZE = new.c_cflag &&& CSIZE →
      old.baud = new.baud →
      old.c_cflag &&& CSTOPB ≠ new.c_cflag &&& CSTOPB →
      rpn_changes old new = RFCOMM_RPN_PM_STOP) ∧
    (new.c_cflag &&& CSTOPB ≠ 0 → rpn_stop_bits new = RFCOMM_RPN_STOP_15) := by
  refine ⟨?_, ?_, ?_, ?_⟩
  · intro h
    simp [rfcomm_tty_set_termios, h]
  · intro h
    simp [rfcomm_tty_set_termios, h]
  · intro h1 h2 h3 h4 h5 h6 h7
    simp [rpn_changes, h1, h2, h3, h4, h5, h6, h7]
  · intro h
    simp [rpn_stop_bits, h]

/-- Witness for claim C5: flipping only CSTOPB (cflag 0 to 64) yields
exactly the stop-bit change bit, and the 2-stop-bit request is coded as
1.5 stop bits. -/
theorem claim_C5_witness :
    rpn_changes ⟨0, 0, 0, 9600⟩ ⟨64, 0, 0, 9600⟩ = RFCOMM_RPN_PM_STOP ∧
    rpn_stop_bits ⟨64, 0, 0, 9600⟩ = RFCOMM_RPN_STOP_15 :=
  ⟨(claim_C5_termios_rpn ⟨0, 0, 0, 9600⟩ ⟨64, 0, 0, 9600⟩).2.2.1
      (by decide) (by decide) rfl rfl (by decide) rfl (by decide),
   (claim_C5_termios_rpn ⟨0, 0, 0, 9600⟩ ⟨64, 0, 0, 9600⟩).2.2.2 (by decide)⟩

/-! ### C6: deferred release and discoverability

The registry is modelled as the ordered list of device records with the
fields the control surface reads.  rfcomm_dev_del and the last-close
path of rfcomm_tty_close mutate it; rfcomm_dev_get, rfcomm_get_dev_info
and rfcomm_get_dev_list read it. -/

/-- A device record as the registry and the control surface see it. -/
structure RegDev where
  id : Int
  flags : Nat
  count : Nat
  channel : Nat
  dlcState : Nat
  deriving Repr, DecidableEq

/-- The released lifecycle bit of a record. -/
def releasedBit (d : RegDev) : Bool := d.flags.testBit RFCOMM_TTY_RELEASED

/-- Setting the released bit (test_and_set_bit in rfcomm_dev_del). -/
def setReleasedBit (d : RegDev) : RegDev :=
  { d with flags := d.flags ||| (1 <<< RFCOMM_TTY_RELEASED) }

/-- The registry scan of __rfcomm_dev_get (tty.c lines 119-128). -/
def __rfcomm_dev_get : List RegDev → Int → Option RegDev
  | [], _ => none
  | d :: rest, id => if d.id = id then some d else __rfcomm_dev_get rest id

/-- rfcomm_dev_get (tty.c lines 130-148): a record whose released bit is
set is not discoverable by id. -/
def rfcomm_dev_get (regs : List RegDev) (id : Int) : Option RegDev :=
  match __rfcomm_dev_get regs id with
  | none => none
  | some d => if releasedBit d then none else some d

/-- rfcomm_get_dev_info (tty.c lines 491-517): not-found when the id
does not resolve, otherwise the record summary. -/
def rfcomm_get_dev_info (regs : List RegDev) (id : Int) : Except Int RegDev :=
  match rfcomm_dev_get regs id with
  | none => Except.error (-ENODEV)
  | some d => Except.ok d

/-- rfcomm_get_dev_list (tty.c lines 441-489): up to dev_num summaries of
the records whose released bit is clear, in registry order. -/
def rfcomm_get_dev_list (regs : List RegDev) (dev_num : Nat) : List RegDev :=
  (regs.filter (fun d => !(releasedBit d))).take dev_num

/-- rfcomm_dev_del (tty.c lines 304-323) applied to a record of the
registry: trips the removal-in-progress assertion (error) when the
released bit is already set; otherwise sets the bit and, only when the
open count is zero, unlinks the record. -/
def rfcomm_dev_del (regs : List RegDev) (d : RegDev) :
    Except Unit (List RegDev) :=
  if releasedBit d then Except.error ()
  else
    let d' := setReleasedBit d
    let regs' := regs.map (fun e => if e.id = d.id then d' else e)
    if 0 < d.count then Except.ok regs'
    else Except.ok (regs'.filter (fun e => !(e.id == d.id)))

/-- The close-count path of rfcomm_tty_close (tty.c lines 721-759)
applied to a record of the registry: decrement the open count; when it
hits zero and the record was marked released, unlink it. -/
def rfcomm_tty_close (regs : List RegDev) (d : RegDev) : List RegDev :=
  let d' := { d with count := d.count - 1 }
  let regs' := regs.map (fun e => if e.id = d.id then d' else e)
  if d.count - 1 = 0 ∧ releasedBit d then
    regs'.filter (fun e => !(e.id == d.id))
  else regs'

theorem releasedBit_setReleasedBit (d : RegDev) :
    releasedBit (setReleasedBit d) = true := by
  simp only [releasedBit, setReleasedBit, Nat.testBit_lor]
  have h : Nat.testBit (1 <<< RFCOMM_TTY_RELEASED) RFCOMM_TTY_RELEASED = true := by
    decide
  rw [h, Bool.or_true]

theorem __rfcomm_dev_get_append_left (pre rest : List RegDev) (id : Int)
    (hpre : ∀ e ∈ pre, e.id ≠ id) :
    __rfcomm_dev_get (pre ++ rest) id = __rfcomm_dev_get rest id := by
  induction pre with
  | nil => rfl
  | cons e pre ih =>
      have hne : e.id ≠ id := hpre e (by simp)
      simp only [List.cons_append, __rfcomm_dev_get, if_neg hne]
      exact ih fun x hx => hpre x (by simp [hx])

theorem __rfcomm_dev_get_eq_none (l : List RegDev) (id : Int)
    (h : ∀ e ∈ l, e.id ≠ id) : __rfcomm_dev_get l id = none := by
  induction l with
  | nil => rfl
  | cons e l ih =>
      simp only [__rfcomm_dev_get, if_neg (h e (by simp))]
      exact ih fun x hx => h x (by simp [hx])

/-- Counterexample to C6 as stated: a registry holding one record with
open count 1; plain release defers teardown and keeps the record in the
registry, yet info(id) already fails not-found instead of remaining
visible. -/
theorem claim_C6_counterexample :
    rfcomm_dev_del [⟨0, 0, 1, 0, 0⟩] ⟨0, 0, 1, 0, 0⟩ =
      Except.ok [⟨0, 16, 1, 0, 0⟩] ∧
    (⟨0, 16, 1, 0, 0⟩ : RegDev) ∈ [(⟨0, 16, 1, 0, 0⟩ : RegDev)] ∧
    rfcomm_get_dev_info [⟨0, 16, 1, 0, 0⟩] 0 = Except.error (-ENODEV) := by
  refine ⟨rfl, by simp, rfl⟩

/-- C6 as amended: release on a device with open count > 0 defers
teardown (the record stays in the registry with its count), but the
device is excluded from info(id) (which fails not-found) as well as from
list() once marked released; after the last close the record is unlinked
and info(id) still fails not-found (rfcomm_dev_del, tty.c lines 304-323;
rfcomm_dev_get, lines 130-148; rfcomm_get_dev_list, lines 465-480;
rfcomm_tty_close, lines 721-759). -/
theorem claim_C6_deferred_release (pre post : List RegDev) (d : RegDev)
    (hpre : ∀ e ∈ pre, e.id ≠ d.id) (hpost : ∀ e ∈ post, e.id ≠ d.id)
    (hrel : releasedBit d = false) (hcount : 0 < d.count) :
    rfcomm_dev_del (pre ++ d :: post) d =
      Except.ok (pre ++ setReleasedBit d :: post) ∧
    rfcomm_get_dev_info (pre ++ setReleasedBit d :: post) d.id =
      Except.error (-ENODEV) ∧
    (∀ n, ∀ e ∈ rfcomm_get_dev_list (pre ++ setReleasedBit d :: post) n,
      e.id ≠ d.id) ∧
    (d.count = 1 →
      rfcomm_tty_close (pre ++ setReleasedBit d :: post) (setReleasedBit d) =
        pre ++ post ∧
      rfcomm_get_dev_info (pre ++ post) d.id = Except.error (-ENODEV)) := by
  have hmap : ∀ (l : List RegDev) (d' : RegDev), (∀ e ∈ l, e.id ≠ d.id) →
      l.map (fun e => if e.id = d.id then d' else e) = l := by
    intro l d' hl
    induction l with
    | nil => rfl
    | cons e l ih =>
        simp only [List.map_cons, if_neg (hl e (by simp))]
        rw [ih fun x hx => hl x (by simp [hx])]
  have hfilter : ∀ l : List RegDev, (∀ e ∈ l, e.id ≠ d.id) →
      l.filter (fun e => !(e.id == d.id)) = l := by
    intro l hl
    apply List.filter_eq_self.mpr
    intro e he
    simp [hl e he]
  have hgetrel : __rfcomm_dev_get (pre ++ setReleasedBit d :: post) d.id =
      some (setReleasedBit d) := by
    rw [__rfcomm_dev_get_append_left pre _ d.id hpre]
    simp [__rfcomm_dev_get, setReleasedBit]
  have hinfo : rfcomm_get_dev_info (pre ++ setReleasedBit d :: post) d.id =
      Except.error (-ENODEV) := by
    simp only [rfcomm_get_dev_info, rfcomm_dev_get, hgetrel,
      releasedBit_setReleasedBit, if_pos]
  refine ⟨?_, hinfo, ?_, ?_⟩
  · have hc1 : ¬(releasedBit d = true) := by simp [hrel]
    simp only [rfcomm_dev_del, if_neg hc1, if_pos hcount]
    rw [List.map_append, List.map_cons, hmap pre _ hpre, hmap post _ hpost,
      if_pos rfl]
  · intro n e he
    have hmem : e ∈ (pre ++ setReleasedBit d :: post).filter
        (fun x => !(releasedBit x)) := List.mem_of_mem_take he
    rw [List.mem_filter] at hmem
    obtain ⟨hmem1, hmem2⟩ := hmem
    rcases List.mem_append.mp hmem1 with h | h
    · exact hpre e h
    · rcases List.mem_cons.mp h with h | h
      · subst h
        rw [releasedBit_setReleasedBit] at hmem2
        cases hmem2
      · exact hpost e h
  · intro hone
    have hid : (setReleasedBit d).id = d.id := rfl
    have hcnt : (setReleasedBit d).count = d.count := rfl
    have hfilter2 : ∀ x : RegDev, x.id = d.id →
        (pre ++ x :: post).filter (fun e => !(e.id == d.id)) = pre ++ post := by
      intro x hx
      rw [List.filter_append, hfilter pre hpre, List.filter_cons,
        if_neg (by simp [hx]), hfilter post hpost]
    constructor
    · simp only [rfcomm_tty_close, hid, hcnt, hone,
        releasedBit_setReleasedBit]
      rw [if_pos (by norm_num)]
      rw [List.map_append, List.map_cons, hmap pre _ hpre, hmap post _ hpost,
        if_pos hid]
      exact hfilter2 _ rfl
    · simp only [rfcomm_get_dev_info, rfcomm_dev_get]
      rw [__rfcomm_dev_get_append_left pre post d.id hpre,
        __rfcomm_dev_get_eq_none post d.id hpost]

/-- Witness for the amended claim C6 at the concrete one-record
registry. -/
theorem claim_C6_witness :
    rfcomm_dev_del [⟨0, 0, 1, 0, 0⟩] ⟨0, 0, 1, 0, 0⟩ =
      Except.ok [setReleasedBit ⟨0, 0, 1, 0, 0⟩] ∧
    rfcomm_get_dev_info [setReleasedBit ⟨0, 0, 1, 0, 0⟩] 0 =
      Except.error (-ENODEV) := by
  have h := claim_C6_deferred_release [] [] ⟨0, 0, 1, 0, 0⟩
    (by simp) (by simp) (by decide) (by decide)
  exact ⟨h.1, h.2.1⟩

/-! ### C7: destruction only after unlink

The reference-counting discipline of the device record is modelled as a
transition system over the lifecycle state: registry membership, the
released bit, the open count, the number of outstanding references
handed out by rfcomm_dev_get, and the tty_port reference count (which
starts at 1, the reference rfcomm_dev_del releases after unlinking).
The destructor (rfcomm_dev_destruct) runs exactly when the reference
count reaches zero, and its BUG_ON demands the record be off the
registry list at that point. -/

/-- Lifecycle state of one device record. -/
structure LifeState where
  onList : Bool
  released : Bool
  opens : Nat
  holders : Nat
  refcnt : Nat
  deriving Repr, DecidableEq

/-- The state rfcomm_dev_add leaves a fresh record in: on the list, not
released, no opens, no outstanding lookups, reference count 1 from
tty_port_init. -/
def lifeStart : LifeState := ⟨true, false, 0, 0, 1⟩

/-- rfcomm_dev_del (tty.c lines 304-323) on the lifecycle state: the
removal-in-progress assertion BUG_ON(test_and_set_bit(RELEASED)) trips
(error) when the released bit is already set; otherwise the bit is set
and, only when the open count is zero, the record is unlinked and the
reference of the registry dropped. -/
def rfcomm_dev_del_life (s : LifeState) : Except Unit LifeState :=
  if s.released then Except.error ()
  else
    let s1 := { s with released := true }
    if 0 < s1.opens then Except.ok s1
    else Except.ok { s1 with onList := false, refcnt := s1.refcnt - 1 }

/-- The last-close bookkeeping of rfcomm_tty_close (tty.c lines
721-759): drop the open count; when it reaches zero on a released
record, unlink and drop the registry reference; finally drop the
reference held since the open's rfcomm_dev_get. -/
def rfcomm_tty_close_life (s : LifeState) : LifeState :=
  let s1 := { s with opens := s.opens - 1 }
  let s2 := if s1.opens = 0 ∧ s1.released then
      { s1 with onList := false, refcnt := s1.refcnt - 1 }
    else s1
  { s2 with holders := s2.holders - 1, refcnt := s2.refcnt - 1 }

/-- One step of the lifecycle discipline as the call sites of tty.c use
it: rfcomm_dev_get takes a reference only on a listed, unreleased
record; every tty_port_put matches an outstanding reference;
rfcomm_tty_open keeps the reference of its successful lookup; releases
go through rfcomm_dev_del while holding a lookup reference. -/
inductive LifeStep : LifeState → LifeState → Prop
  | get (s : LifeState) (hl : s.onList = true) (hr : s.released = false) :
      LifeStep s { s with holders := s.holders + 1, refcnt := s.refcnt + 1 }
  | put (s : LifeState) (hh : 1 ≤ s.holders) :
      LifeStep s { s with holders := s.holders - 1, refcnt := s.refcnt - 1 }
  | openTty (s : LifeState) (hl : s.onList = true) (hr : s.released = false) :
      LifeStep s
        { s with opens := s.opens + 1, holders := s.holders + 1, refcnt := s.refcnt + 1 }
  | closeTty (s : LifeState) (ho : 1 ≤ s.opens) (hh : 1 ≤ s.holders) :
      LifeStep s (rfcomm_tty_close_life s)
  | del (s t : LifeState) (hh : 1 ≤ s.holders)
      (h : rfcomm_dev_del_life s = Except.ok t) : LifeStep s t

/-- States reachable from a freshly added record. -/
inductive LifeReachable : LifeState → Prop
  | start : LifeReachable lifeStart
  | step {s t : LifeState} (hs : LifeReachable s) (st : LifeStep s t) :
      LifeReachable t

/-- The lifecycle invariant: while listed, the reference count is one
(the registry reference) plus the outstanding lookup references; once
off the list the record is already released and the count is exactly the
outstanding references; a record with opens is still listed. -/
def LifeInv (s : LifeState) : Prop :=
  (s.onList = true → s.refcnt = 1 + s.holders) ∧
  (s.onList = false → s.released = true ∧ s.refcnt = s.holders) ∧
  (1 ≤ s.opens → s.onList = true)

theorem lifeStep_inv {s t : LifeState} (hinv : LifeInv s)
    (hstep : LifeStep s t) : LifeInv t := by
  obtain ⟨i1, i2, i3⟩ := hinv
  cases hstep with
  | get hl hr =>
      refine ⟨?_, ?_, ?_⟩ <;> dsimp only <;> intro h
      · have := i1 h; omega
      · rw [hl] at h; exact absurd h (by decide)
      · exact hl
  | put hh =>
      refine ⟨?_, ?_, ?_⟩ <;> dsimp only <;> intro h
      · have := i1 h; omega
      · obtain ⟨ha, hb⟩ := i2 h; exact ⟨ha, by omega⟩
      · exact i3 h
  | openTty hl hr =>
      refine ⟨?_, ?_, ?_⟩ <;> dsimp only <;> intro h
      · have := i1 h; omega
      · rw [hl] at h; exact absurd h (by decide)
      · exact hl
  | closeTty ho hh =>
      have hlist : s.onList = true := i3 ho
      have hcnt : s.refcnt = 1 + s.holders := i1 hlist
      simp only [rfcomm_tty_close_life]
      by_cases hc : s.opens - 1 = 0 ∧ s.released = true
      · rw [if_pos hc]
        refine ⟨?_, ?_, ?_⟩ <;> dsimp only <;> intro h
        · exact absurd h (by decide)
        · exact ⟨hc.2, by omega⟩
        · exfalso; omega
      · rw [if_neg hc]
        refine ⟨?_, ?_, ?_⟩ <;> dsimp only <;> intro h
        · omega
        · rw [hlist] at h; exact absurd h (by decide)
        · exact hlist
  | del _ hh hdel =>
      simp only [rfcomm_dev_del_life] at hdel
      by_cases hr : s.released = true
      · rw [if_pos hr] at hdel
        cases hdel
      · rw [if_neg hr] at hdel
        have hlist : s.onList = true := by
          cases hcase : s.onList
          · exact absurd (i2 hcase).1 hr
          · rfl
        have hcnt : s.refcnt = 1 + s.holders := i1 hlist
        by_cases ho : 0 < s.opens
        · rw [if_pos ho] at hdel
          cases hdel
          refine ⟨?_, ?_, ?_⟩ <;> dsimp only <;> intro h
          · exact hcnt
          · rw [hlist] at h; exact absurd h (by decide)
          · exact hlist
        · rw [if_neg ho] at hdel
          cases hdel
          refine ⟨?_, ?_, ?_⟩ <;> dsimp only <;> intro h
          · exact absurd h (by decide)
          · exact ⟨rfl, by omega⟩
          · exfalso; omega

theorem lifeReachable_inv {s : LifeState} (h : LifeReachable s) :
    LifeInv s := by
  induction h with
  | start =>
      refine ⟨fun _ => rfl, ?_, ?_⟩ <;> intro h <;> exact absurd h (by decide)
  | step hs st ih => exact lifeStep_inv ih st

/-- C7: in every reachable lifecycle state the reference count can only
be zero once the record is off the registry list, so the assertion of
rfcomm_dev_destruct (tty.c lines 86-113) that a dying record is already
unlinked never fires; and running rfcomm_dev_del twice on the same
record trips its removal-in-progress assertion, a fatal error
(rfcomm_dev_del, tty.c line 309). -/
theorem claim_C7_destroy_after_unlink :
    (∀ s : LifeState, LifeReachable s → s.refcnt = 0 → s.onList = false) ∧
    (∀ s t : LifeState, rfcomm_dev_del_life s = Except.ok t →
      rfcomm_dev_del_life t = Except.error ()) := by
  constructor
  · intro s hs hz
    obtain ⟨h1, _, _⟩ := lifeReachable_inv hs
    cases hcase : s.onList
    · rfl
    · have := h1 hcase
      omega
  · intro s t hok
    simp only [rfcomm_dev_del_life] at hok
    by_cases hr : s.released = true
    · rw [if_pos hr] at hok
      cases hok
    · rw [if_neg hr] at hok
      have hrt : t.released = true := by
        by_cases ho : 0 < s.opens
        · rw [if_pos ho] at hok
          cases hok
          rfl
        · rw [if_neg ho] at hok
          cases hok
          rfl
      simp [rfcomm_dev_del_life, hrt]

/-- Witness for claim C7: the concrete reachable state after get, del
and put has reference count zero and is indeed off the list; a second
del on the state produced by a first del trips the assertion. -/
theorem claim_C7_witness :
    (⟨false, true, 0, 0, 0⟩ : LifeState).onList = false ∧
    rfcomm_dev_del_life ⟨false, true, 0, 1, 1⟩ = Except.error () := by
  have hreach : LifeReachable ⟨false, true, 0, 0, 0⟩ := by
    have h0 : LifeReachable lifeStart := LifeReachable.start
    have h1 : LifeReachable ⟨true, false, 0, 1, 2⟩ :=
      h0.step (LifeStep.get lifeStart rfl rfl)
    have h2 : LifeReachable ⟨false, true, 0, 1, 1⟩ :=
      h1.step (LifeStep.del ⟨true, false, 0, 1, 2⟩ ⟨false, true, 0, 1, 1⟩
        (by norm_num) rfl)
    exact h2.step (LifeStep.put ⟨false, true, 0, 1, 1⟩ (by norm_num))
  constructor
  · exact claim_C7_destroy_after_unlink.1 _ hreach rfl
  · exact claim_C7_destroy_after_unlink.2 ⟨true, false, 0, 1, 2⟩
      ⟨false, true, 0, 1, 1⟩ rfl

/-! ### C8: reopening an already-open device

The open path is modelled on the state it reads and writes, with an
oracle for the channel-connect request and the wait outcome used only on
the first open. -/

/-- State rfcomm_tty_open manipulates: the port open count, whether a
tty is attached (port.tty and driver_data), and the ATTACHED flag bit. -/
structure OpenDev where
  count : Nat
  ttyAttached : Bool
  attachedFlag : Bool
  deriving Repr, DecidableEq

/-- External outcomes for the first-open path: the result of
rfcomm_dlc_open, and the value the connect wait loop ends with. -/
structure OpenOracle where
  dlcOpenRes : Int
  waitRes : Int
  deriving Repr, DecidableEq

/-- Outcome of rfcomm_tty_open: return value, device state, whether a
channel connect was requested, whether the caller blocked waiting. -/
structure OpenOutcome where
  res : Int
  dev : OpenDev
  connectRequested : Bool
  waited : Bool
  deriving Repr, DecidableEq

/-- rfcomm_tty_open (tty.c lines 641-719) after a successful lookup:
increment the open count and, only when it just became 1, attach the
tty, request the channel connect and wait for the outcome. -/
def rfcomm_tty_open (dev : OpenDev) (o : OpenOracle) : OpenOutcome :=
  let dev1 := { dev with count := dev.count + 1 }
  if 1 < dev1.count then ⟨0, dev1, false, false⟩
  else
    let dev2 := { dev1 with ttyAttached := true, attachedFlag := true }
    if o.dlcOpenRes < 0 then ⟨o.dlcOpenRes, dev2, true, false⟩
    else ⟨o.waitRes, dev2, true, true⟩

/-- C8: an open of a device whose open count is already at least 1 only
increments the count and returns success immediately, with no tty
attach, no connect request and no wait; only the open taking the count
from 0 to 1 requests the connect (rfcomm_tty_open, tty.c lines
664-683). -/
theorem claim_C8_reopen_increments_only (dev : OpenDev) (o : OpenOracle) :
    (1 ≤ dev.count → rfcomm_tty_open dev o =
      ⟨0, { dev with count := dev.count + 1 }, false, false⟩) ∧
    (dev.count = 0 → (rfcomm_tty_open dev o).connectRequested = true) := by
  constructor
  · intro h
    simp only [rfcomm_tty_open]
    rw [if_pos (show 1 < dev.count + 1 by omega)]
  · intro h
    simp only [rfcomm_tty_open, h]
    rw [if_neg (show ¬(1 < 0 + 1) by omega)]
    by_cases hc : o.dlcOpenRes < 0
    · rw [if_pos hc]
    · rw [if_neg hc]

/-- Witness for claim C8: a second open on a device with count 1 and its
original attachment state returns 0 and only bumps the count. -/
theorem claim_C8_witness :
    rfcomm_tty_open ⟨1, true, true⟩ ⟨0, 0⟩ = ⟨0, ⟨2, true, true⟩, false, false⟩ :=
  (claim_C8_reopen_increments_only ⟨1, true, true⟩ ⟨0, 0⟩).1 (by norm_num)

end RfcommTty
